import Mathlib

/-!
Shallow embedding of the `beidanci` vocabulary-practice application
(`Learn_and_test_danci.py`, `vocabulary_app.py`, `vocabulary_app_old.py`).

The `VocabularyPractice` class becomes the structure `VocabState`; each
method becomes a Lean function on that structure.  Randomness
(`random.choice`, `random.sample`) is modelled by universally quantifying
over the choice: `random.choice(l)` becomes indexing by `c % l.length`
for an arbitrary `c : Nat`, and `random.sample(words, n)` becomes mapping
an arbitrary list of `n` distinct in-range indices over `words`.
Wall-clock time (`datetime.now()`) is an explicit `Int` parameter counted
in seconds.  The external dictionary call is an explicit `ApiResponse`
parameter.  Parsed tabular input is an `Option (List (List String))`:
`none` for a parse exception, otherwise the list of columns, each a list
of cell texts (the result of Python `str()` on the raw cell).
-/

namespace Beidanci

/-- State of a `VocabularyPractice` instance (`__init__` of
`Learn_and_test_danci.py`): word list, cached meanings (assoc list, most
recent first, mirroring dict insertion), the set of used words, the
current word (`None` ↦ `none`), selected study words, study-mode flag
and study start time in seconds (`None` ↦ `none`). -/
structure VocabState where
  words : List String
  wordMeanings : List (String × String)
  usedWords : Finset String
  currentWord : Option String
  studyWords : List String
  studyMode : Bool
  studyStartTime : Option Int

/-- The initial state built by `__init__`. -/
def initState : VocabState :=
  { words := [], wordMeanings := [], usedWords := ∅, currentWord := none,
    studyWords := [], studyMode := false, studyStartTime := none }

/-- Python `str.lower()` (ASCII case folding, which covers every string
this program compares). -/
def pyLower (s : String) : String := ⟨s.data.map Char.toLower⟩

/-- Python `str.strip()` with no argument: remove leading and trailing
whitespace. -/
def pyStrip (s : String) : String :=
  ⟨((s.data.dropWhile Char.isWhitespace).reverse.dropWhile Char.isWhitespace).reverse⟩

/-- Python slicing `s[:n]`. -/
def pyTake (s : String) (n : Nat) : String := ⟨s.data.take n⟩

/-- Lookup in the cached-meanings assoc list (Python `word in dict` /
`dict[word]`; insertion conses in front, so the first hit is the most
recent binding, matching dict overwrite semantics). -/
def lookupMeaning : List (String × String) → String → Option String
  | [], _ => none
  | (k, v) :: rest, w => if k = w then some v else lookupMeaning rest w

/-- The per-cell filter of `load_words_from_excel`
(`Learn_and_test_danci.py` line 40): a cell is kept when
`str(word).strip()` is non-empty AND `str(word).lower() != 'nan'`
(note: `lower` is applied to the UNstripped text); the kept value is the
stripped text. -/
def keepCell (cell : String) : Option String :=
  if pyStrip cell ≠ "" ∧ pyLower cell ≠ "nan" then some (pyStrip cell) else none

/-- Words collected from all columns of the parsed table, in column
order (the `for column in df.columns` loop with `all_words.extend`). -/
def collectWords (cols : List (List String)) : List String :=
  (cols.map (fun col => col.filterMap keepCell)).flatten

/-- `load_words_from_excel` (`Learn_and_test_danci.py` lines 21–51,
identical in `vocabulary_app.py`): `parsed = none` models the
`except` path (file missing/unreadable), otherwise `parsed = some cols`.
With at least one column it commits `self.words` and resets
`self.used_words` before testing `len(self.words) > 0`. -/
def loadWordsFromExcel (s : VocabState) (parsed : Option (List (List String))) :
    Bool × VocabState :=
  match parsed with
  | none => (false, s)
  | some cols =>
    if cols.length > 0 then
      let allWords := collectWords cols
      (allWords.length > 0,
       { s with words := allWords, usedWords := ∅ })
    else
      (false, s)

/-- The per-cell filter of the first-column loader in
`vocabulary_app_old.py` line 41: only emptiness after stripping is
tested, there is no `'nan'` filter at all. -/
def keepCellOld (cell : String) : Option String :=
  if pyStrip cell ≠ "" then some (pyStrip cell) else none

/-- `check_spelling` (`Learn_and_test_danci.py` lines 182–195, identical
in both other variants): Python `if not self.current_word` is falsy on
both `None` and the empty string; otherwise both the input and the
current word are stripped and lower-cased before comparison. -/
def checkSpelling (s : VocabState) (userInput : String) : Bool :=
  match s.currentWord with
  | none => false
  | some w =>
    if w = "" then false
    else decide (pyLower (pyStrip userInput) = pyLower (pyStrip w))

/-- `start_study_mode` (`Learn_and_test_danci.py` lines 202–205). -/
def startStudyMode (s : VocabState) (now : Int) : VocabState :=
  { s with studyMode := true, studyStartTime := some now }

/-- `can_start_test` (`Learn_and_test_danci.py` lines 207–211):
`datetime.now() - self.study_start_time >= timedelta(minutes=5)`,
times in seconds, so the threshold is 300. -/
def canStartTest (s : VocabState) (now : Int) : Bool :=
  match s.studyStartTime with
  | none => false
  | some t => decide (300 ≤ now - t)

/-- Outcome of the external dictionary request in
`get_word_meaning_online`: a 200 response carrying a definition, a 200
response whose JSON lacks the expected fields, a non-200 status, or a
raised exception (transport error / timeout) with its message text. -/
inductive ApiResponse where
  | success (definition : String)
  | noDefinition
  | badStatus
  | failure (msg : String)

/-- The apostrophe character used in the fallback texts. -/
def apos : String := (Char.ofNat 39).toString

/-- Fallback text `f"Definition for '{word}' (API unavailable)"`. -/
def fallbackUnavailable (word : String) : String :=
  "Definition for " ++ apos ++ word ++ apos ++ " (API unavailable)"

/-- Fallback text `f"Definition for '{word}' (Error: {str(e)[:50]}...)"`. -/
def fallbackErrorText (word msg : String) : String :=
  "Definition for " ++ apos ++ word ++ apos ++ " (Error: " ++ pyTake msg 50 ++ "...)"

/-- `get_word_meaning_online` (`Learn_and_test_danci.py` lines 53–94):
a cached word is answered from the cache without touching the network;
otherwise the api outcome decides between the real definition and the
two placeholder texts, and whatever is returned is cached under the
word (original case). -/
def getWordMeaningOnline (s : VocabState) (word : String) (api : ApiResponse) :
    String × VocabState :=
  match lookupMeaning s.wordMeanings word with
  | some m => (m, s)
  | none =>
    match api with
    | ApiResponse.success d =>
        (d, { s with wordMeanings := (word, d) :: s.wordMeanings })
    | ApiResponse.noDefinition =>
        let f := fallbackUnavailable word
        (f, { s with wordMeanings := (word, f) :: s.wordMeanings })
    | ApiResponse.badStatus =>
        let f := fallbackUnavailable word
        (f, { s with wordMeanings := (word, f) :: s.wordMeanings })
    | ApiResponse.failure msg =>
        let f := fallbackErrorText word msg
        (f, { s with wordMeanings := (word, f) :: s.wordMeanings })

/-- `random.sample(words, m)` modelled by an explicit list of chosen
indices: the sample is valid when the indices are distinct, in range,
and exactly `m` of them. -/
def validSample (words : List String) (m : Nat) (idxs : List Nat) : Prop :=
  idxs.Nodup ∧ idxs.length = m ∧ ∀ i ∈ idxs, i < words.length

/-- Mapping sample indices to the sampled words. -/
def sampleByIdx (words : List String) (idxs : List Nat) : List String :=
  idxs.map (fun i => words.getD i "")

/-- `select_study_words` (`Learn_and_test_danci.py` lines 96–126),
with `random.sample(self.words, min(n, len(self.words)))` replaced by
`sampleByIdx` over caller-chosen indices.  With an empty word list it
returns `[]` and leaves the state untouched; otherwise it installs the
sampled pool and resets `used_words`.  (The meaning pre-fetch loop only
feeds the UI progress bar and the meaning cache; it does not affect the
selector state modelled here.) -/
def selectStudyWords (s : VocabState) (n : Nat) (idxs : List Nat) :
    List String × VocabState :=
  if s.words = [] then ([], s)
  else
    let pool := sampleByIdx s.words (idxs.take (min n s.words.length))
    (pool, { s with studyWords := pool, usedWords := ∅ })

/-- The reset step of `get_random_study_word` (lines 139–142): if every
study word has been used (`len(self.used_words) >= len(self.study_words)`),
clear `used_words`. -/
def resetIfExhausted (s : VocabState) : VocabState :=
  if s.studyWords.length ≤ s.usedWords.card then { s with usedWords := ∅ } else s

/-- Lines 144–147: the study words not yet used, falling back to the
whole pool when that list is empty (the `# Just in case` branch). -/
def availableWords (s : VocabState) : List String :=
  if s.studyWords.filter (fun w => decide (w ∉ s.usedWords)) = []
  then s.studyWords
  else s.studyWords.filter (fun w => decide (w ∉ s.usedWords))

/-- `random.choice(l)` modelled as indexing at `choice % l.length` for a
caller-chosen `choice`. -/
def pickWord (l : List String) (choice : Nat) : String :=
  l.getD (choice % l.length) ""

/-- `get_random_study_word` (`Learn_and_test_danci.py` lines 128–153).
Empty pool: error, `None`, state untouched.  Otherwise reset when
exhausted, draw from the available words, record the draw as used and as
current. -/
def getRandomStudyWord (s : VocabState) (choice : Nat) :
    Option String × VocabState :=
  if s.studyWords = [] then (none, s)
  else
    let s1 := resetIfExhausted s
    let w := pickWord (availableWords s1) choice
    (some w, { s1 with usedWords := insert w s1.usedWords, currentWord := some w })

/-- `get_random_word` (`vocabulary_app.py` lines 47–72, identical logic
over `self.words` / `self.used_words`). -/
def getRandomWord (s : VocabState) (choice : Nat) :
    Option String × VocabState :=
  if s.words = [] then (none, s)
  else
    let s1 := if s.words.length ≤ s.usedWords.card
              then { s with usedWords := ∅ } else s
    let avail0 := s1.words.filter (fun w => decide (w ∉ s1.usedWords))
    let avail := if avail0 = [] then s1.words else avail0
    let w := avail.getD (choice % avail.length) ""
    (some w, { s1 with usedWords := insert w s1.usedWords, currentWord := some w })

/-- The word produced by one `get_random_study_word` call (meaningful
when the pool is non-empty, where the call always returns `some`). -/
def drawWord (s : VocabState) (c : Nat) : String :=
  ((getRandomStudyWord s c).1).getD ""

/-- The state after one `get_random_study_word` call. -/
def drawState (s : VocabState) (c : Nat) : VocabState :=
  (getRandomStudyWord s c).2

/-- Running a sequence of `get_random_study_word` calls, collecting the
returned words. -/
def runDraws : VocabState → List Nat → List String × VocabState
  | s, [] => ([], s)
  | s, c :: cs =>
    let r := runDraws (drawState s c) cs
    (drawWord s c :: r.1, r.2)

/-- Outputs of a call sequence. -/
def runOut (s : VocabState) (cs : List Nat) : List String := (runDraws s cs).1

/-- Final state of a call sequence. -/
def runState (s : VocabState) (cs : List Nat) : VocabState := (runDraws s cs).2

/-- Session counters kept in `st.session_state`
(`correct_count` / `total_count`). -/
structure Counters where
  correct_count : Nat
  total_count : Nat

/-- The two counter-touching UI actions of `main` in
`Learn_and_test_danci.py`: submitting a spelling (lines 407–418; the
form requires `submit_button and user_spelling`, so empty input is a
no-op) with the `current_word` in effect, and pressing Stop Test
(lines 388–389). -/
inductive SessionEvent where
  | submitSpelling (current : Option String) (input : String)
  | stopTest

/-- Effect of one UI action on the counters: a submitted non-empty input
always increments `total_count`, and increments `correct_count` exactly
when `check_spelling` succeeded; Stop Test zeroes both. -/
def applyEvent (st : Counters) (e : SessionEvent) : Counters :=
  match e with
  | SessionEvent.submitSpelling cur inp =>
    if inp = "" then st
    else if checkSpelling { initState with currentWord := cur } inp then
      { correct_count := st.correct_count + 1, total_count := st.total_count + 1 }
    else
      { st with total_count := st.total_count + 1 }
  | SessionEvent.stopTest => { correct_count := 0, total_count := 0 }

/-- Counters after a sequence of UI actions, starting from the
session-state initialisation `correct_count = total_count = 0`. -/
def runEvents (es : List SessionEvent) : Counters :=
  es.foldl applyEvent { correct_count := 0, total_count := 0 }

/-- The selector-state invariant of C10: every used word belongs to the
current study pool. -/
def UsedSub (s : VocabState) : Prop := ∀ x ∈ s.usedWords, x ∈ s.studyWords

/-- A study pool containing a duplicated word, reachable when the loaded
word list itself contains the same text twice; used to refute the
reset-on-coverage wording of C1. -/
def c1Pool : List String := ["a", "a", "b"]

/-- Selector state holding `c1Pool` as a freshly selected study pool. -/
def c1S0 : VocabState := { initState with studyWords := c1Pool }

/-- A state with a word list and used set already loaded, from which the
C4 counterexample issues a failing load. -/
def c4Before : VocabState :=
  { initState with words := ["cat"], usedWords := {"cat"} }

/-- A two-word session with one word already drawn; a concrete instance
for witnesses. -/
def twoWordState : VocabState :=
  { initState with
      words := ["cat", "dog"], studyWords := ["cat", "dog"],
      usedWords := {"cat"} }

/-- A freshly selected duplicate-free two-word pool; a concrete instance
for witnesses. -/
def w1State : VocabState := { initState with studyWords := ["a", "b"] }

/-! ## Helper lemmas -/

/-- Indexing a non-empty list at `c % length` is a member. -/
theorem getD_mod_mem (l : List String) (c : Nat) (h : l ≠ []) :
    l.getD (c % l.length) "" ∈ l := by
  have hpos : 0 < l.length := List.length_pos.mpr h
  have hlt : c % l.length < l.length := Nat.mod_lt _ hpos
  rw [List.getD_eq_getElem l "" hlt]
  exact List.getElem_mem hlt

/-- `get_random_study_word` on an empty pool: refused, state unchanged. -/
theorem getRandomStudyWord_empty (s : VocabState) (c : Nat)
    (h : s.studyWords = []) : getRandomStudyWord s c = (none, s) := by
  simp [getRandomStudyWord, h]

/-- `get_random_word` on an empty word list: refused, state unchanged. -/
theorem getRandomWord_empty (s : VocabState) (c : Nat)
    (h : s.words = []) : getRandomWord s c = (none, s) := by
  simp [getRandomWord, h]

theorem resetIfExhausted_studyWords (s : VocabState) :
    (resetIfExhausted s).studyWords = s.studyWords := by
  unfold resetIfExhausted; split <;> rfl

theorem resetIfExhausted_used_cases (s : VocabState) :
    (resetIfExhausted s).usedWords = ∅ ∨ (resetIfExhausted s).usedWords = s.usedWords := by
  unfold resetIfExhausted; split
  · exact Or.inl rfl
  · exact Or.inr rfl

theorem availableWords_subset (s : VocabState) :
    availableWords s ⊆ s.studyWords := by
  unfold availableWords; split
  · exact fun x hx => hx
  · exact fun x hx => (List.mem_filter.mp hx).1

theorem availableWords_ne_nil (s : VocabState) (h : s.studyWords ≠ []) :
    availableWords s ≠ [] := by
  unfold availableWords; split
  · exact h
  · assumption

theorem pickWord_mem (l : List String) (c : Nat) (h : l ≠ []) :
    pickWord l c ∈ l :=
  getD_mod_mem l c h

/-- With a non-empty pool a draw returns
`pickWord (availableWords (resetIfExhausted s)) c`. -/
theorem drawWord_eq (s : VocabState) (c : Nat) (h : s.studyWords ≠ []) :
    drawWord s c = pickWord (availableWords (resetIfExhausted s)) c := by
  simp [drawWord, getRandomStudyWord, h]

/-- With a non-empty pool the drawn word is a pool member. -/
theorem drawWord_mem (s : VocabState) (c : Nat) (h : s.studyWords ≠ []) :
    drawWord s c ∈ s.studyWords := by
  have h1 := resetIfExhausted_studyWords s
  have h2 : availableWords (resetIfExhausted s) ≠ [] :=
    availableWords_ne_nil _ (by rw [h1]; exact h)
  have h3 := pickWord_mem (availableWords (resetIfExhausted s)) c h2
  have h4 := availableWords_subset (resetIfExhausted s) h3
  rw [h1] at h4
  rw [drawWord_eq s c h]
  exact h4

/-- The state after a non-empty draw. -/
theorem drawState_eq (s : VocabState) (c : Nat) (h : s.studyWords ≠ []) :
    drawState s c =
      { resetIfExhausted s with
          usedWords := insert (drawWord s c) (resetIfExhausted s).usedWords,
          currentWord := some (drawWord s c) } := by
  rw [drawWord_eq s c h]
  simp [drawState, getRandomStudyWord, h]

theorem runOut_nil (s : VocabState) : runOut s [] = [] := rfl

theorem runOut_cons (s : VocabState) (c : Nat) (cs : List Nat) :
    runOut s (c :: cs) = drawWord s c :: runOut (drawState s c) cs := rfl

theorem runState_nil (s : VocabState) : runState s [] = s := rfl

theorem runState_cons (s : VocabState) (c : Nat) (cs : List Nat) :
    runState s (c :: cs) = runState (drawState s c) cs := rfl

/-- One draw preserves the drawn ⊆ pool invariant. -/
theorem drawState_usedSub (s : VocabState) (c : Nat) (h : UsedSub s) :
    UsedSub (drawState s c) := by
  by_cases hs : s.studyWords = []
  · have : drawState s c = s := congrArg Prod.snd (getRandomStudyWord_empty s c hs)
    rw [this]; exact h
  · rw [drawState_eq s c hs]
    intro x hx
    simp only at hx ⊢
    rw [resetIfExhausted_studyWords]
    rcases Finset.mem_insert.mp hx with h1 | h1
    · rw [h1]; exact drawWord_mem s c hs
    · rcases resetIfExhausted_used_cases s with h2 | h2
      · rw [h2] at h1; exact absurd h1 (Finset.not_mem_empty x)
      · rw [h2] at h1; exact h x h1

/-- A sequence of draws preserves the drawn ⊆ pool invariant. -/
theorem runState_usedSub (cs : List Nat) :
    ∀ s : VocabState, UsedSub s → UsedSub (runState s cs) := by
  induction cs with
  | nil => intro s h; exact h
  | cons c cs ih =>
    intro s h
    rw [runState_cons]
    exact ih _ (drawState_usedSub s c h)

/-- Mapping `getD` over `range l.length` reproduces `l`. -/
theorem map_getD_range (l : List String) :
    (List.range l.length).map (fun i => l.getD i "") = l := by
  apply List.ext_getElem
  · simp
  · intro i h1 h2
    simp only [List.getElem_map, List.getElem_range]
    exact l.getD_eq_getElem "" h2

/-- A full-length valid sample is a permutation of the word list. -/
theorem sample_perm (words : List String) (idxs : List Nat)
    (hnd : idxs.Nodup) (hlen : idxs.length = words.length)
    (hbnd : ∀ i ∈ idxs, i < words.length) :
    List.Perm (sampleByIdx words idxs) words := by
  have hsub : idxs ⊆ List.range words.length := fun i hi =>
    List.mem_range.mpr (hbnd i hi)
  have hsp : List.Subperm idxs (List.range words.length) :=
    List.subperm_of_subset hnd hsub
  have hperm : List.Perm idxs (List.range words.length) :=
    hsp.perm_of_length_le (by simp [hlen])
  have hmap := hperm.map (fun i => words.getD i "")
  rw [map_getD_range] at hmap
  exact hmap

/-- A draw leaves the study pool unchanged, whatever the state. -/
theorem drawState_studyWords (s : VocabState) (c : Nat) :
    (drawState s c).studyWords = s.studyWords := by
  by_cases h : s.studyWords = []
  · rw [show drawState s c = s from congrArg Prod.snd (getRandomStudyWord_empty s c h)]
  · rw [drawState_eq s c h]
    exact resetIfExhausted_studyWords s

/-- Every word a draw sequence outputs on a non-empty pool is a pool
member. -/
theorem runOut_mem_pool (cs : List Nat) :
    ∀ s : VocabState, s.studyWords ≠ [] → ∀ w ∈ runOut s cs, w ∈ s.studyWords := by
  induction cs with
  | nil => intro s _ w hw; simp [runOut_nil] at hw
  | cons c cs ih =>
    intro s hne w hw
    rw [runOut_cons] at hw
    rcases List.mem_cons.mp hw with h | h
    · rw [h]; exact drawWord_mem s c hne
    · have hmem := ih (drawState s c) (by rw [drawState_studyWords]; exact hne) w h
      rwa [drawState_studyWords] at hmem

/-- The draw step on an unexhausted, duplicate-free pool: no reset
happens, the drawn word is an unused pool member, and it is the only
word added to the drawn set. -/
theorem draw_step (s : VocabState) (c : Nat)
    (hne : s.studyWords ≠ [])
    (hnd : s.studyWords.Nodup)
    (hsub : ∀ x ∈ s.usedWords, x ∈ s.studyWords)
    (hcard : s.usedWords.card < s.studyWords.length) :
    drawWord s c ∈ s.studyWords
    ∧ drawWord s c ∉ s.usedWords
    ∧ (drawState s c).usedWords = insert (drawWord s c) s.usedWords
    ∧ (drawState s c).studyWords = s.studyWords := by
  have hnr : resetIfExhausted s = s := by
    unfold resetIfExhausted
    rw [if_neg (Nat.not_le.mpr hcard)]
  have hsubF : s.usedWords ⊆ s.studyWords.toFinset := fun x hx =>
    List.mem_toFinset.mpr (hsub x hx)
  have hcardF : s.usedWords.card < s.studyWords.toFinset.card := by
    rw [List.toFinset_card_of_nodup hnd]; exact hcard
  have hneF : s.usedWords ≠ s.studyWords.toFinset := by
    intro he
    rw [he] at hcardF
    exact lt_irrefl _ hcardF
  obtain ⟨x, hxF, hxU⟩ :=
    Finset.exists_of_ssubset (ssubset_of_subset_of_ne hsubF hneF)
  have hxfl : x ∈ s.studyWords.filter (fun w => decide (w ∉ s.usedWords)) :=
    List.mem_filter.mpr ⟨List.mem_toFinset.mp hxF, decide_eq_true hxU⟩
  have hfl : s.studyWords.filter (fun w => decide (w ∉ s.usedWords)) ≠ [] :=
    List.ne_nil_of_mem hxfl
  have havail : availableWords s = s.studyWords.filter (fun w => decide (w ∉ s.usedWords)) := by
    unfold availableWords
    rw [if_neg hfl]
  have hw_fl : drawWord s c ∈ s.studyWords.filter (fun w => decide (w ∉ s.usedWords)) := by
    rw [drawWord_eq s c hne, hnr, havail]
    exact pickWord_mem _ c hfl
  obtain ⟨hw_mem, hw_dec⟩ := List.mem_filter.mp hw_fl
  refine ⟨hw_mem, of_decide_eq_true hw_dec, ?_, ?_⟩
  · rw [drawState_eq s c hne, hnr]
  · exact drawState_studyWords s c

/-- A draw sequence outputs as many words as it makes calls. -/
theorem runOut_length (cs : List Nat) :
    ∀ s : VocabState, (runOut s cs).length = cs.length := by
  induction cs with
  | nil => intro s; rfl
  | cons c cs ih => intro s; simp [runOut_cons, ih]

/-- Running the remainder of a pass on a duplicate-free pool: all outputs
are distinct pool members not yet drawn, and the drawn set grows by
exactly those outputs. -/
theorem draw_pass (pool : List String) (hnd : pool.Nodup) (cs : List Nat) :
    ∀ s : VocabState, s.studyWords = pool →
      (∀ x ∈ s.usedWords, x ∈ pool) →
      s.usedWords.card + cs.length = pool.length →
      (∀ w ∈ runOut s cs, w ∈ pool)
      ∧ (runOut s cs).Nodup
      ∧ (∀ w ∈ runOut s cs, w ∉ s.usedWords)
      ∧ (runState s cs).usedWords = s.usedWords ∪ (runOut s cs).toFinset
      ∧ (runState s cs).studyWords = pool := by
  induction cs with
  | nil =>
    intro s hs _ _
    refine ⟨?_, ?_, ?_, ?_, ?_⟩
    · intro w hw; simp [runOut_nil] at hw
    · simp [runOut_nil]
    · intro w hw; simp [runOut_nil] at hw
    · simp [runState_nil, runOut_nil]
    · rw [runState_nil]; exact hs
  | cons c cs ih =>
    intro s hs hsub hcount
    have hne : s.studyWords ≠ [] := by
      rw [hs]
      intro h0
      rw [h0] at hcount
      simp only [List.length_nil, List.length_cons] at hcount
      omega
    have hcard : s.usedWords.card < s.studyWords.length := by
      rw [hs]
      simp at hcount
      omega
    obtain ⟨hw_mem, hw_not, hused, hstudy⟩ :=
      draw_step s c hne (by rw [hs]; exact hnd) (by rw [hs]; exact hsub) hcard
    have hsub1 : ∀ x ∈ (drawState s c).usedWords, x ∈ pool := by
      intro x hx
      rw [hused] at hx
      rcases Finset.mem_insert.mp hx with h1 | h1
      · rw [h1, ← hs]; exact hw_mem
      · exact hsub x h1
    have hcount1 : (drawState s c).usedWords.card + cs.length = pool.length := by
      rw [hused, Finset.card_insert_of_not_mem hw_not]
      simp at hcount
      omega
    obtain ⟨ih_mem, ih_nodup, ih_fresh, ih_used, ih_study⟩ :=
      ih (drawState s c) (by rw [hstudy]; exact hs) hsub1 hcount1
    refine ⟨?_, ?_, ?_, ?_, ?_⟩
    · intro w hw
      rw [runOut_cons] at hw
      rcases List.mem_cons.mp hw with h1 | h1
      · rw [h1, ← hs]; exact hw_mem
      · exact ih_mem w h1
    · rw [runOut_cons]
      refine List.nodup_cons.mpr ⟨?_, ih_nodup⟩
      intro hmem
      have hfresh := ih_fresh _ hmem
      rw [hused] at hfresh
      exact hfresh (Finset.mem_insert_self _ _)
    · intro w hw
      rw [runOut_cons] at hw
      rcases List.mem_cons.mp hw with h1 | h1
      · rw [h1]; exact hw_not
      · intro hwused
        exact ih_fresh w h1 (by rw [hused]; exact Finset.mem_insert_of_mem hwused)
    · rw [runState_cons, ih_used, hused, runOut_cons, List.toFinset_cons,
        Finset.insert_union, Finset.union_insert]
    · rw [runState_cons]; exact ih_study

/-- A full pass from an empty drawn set on a duplicate-free pool
enumerates the pool exactly once (in some order) and ends with the drawn
set covering the pool. -/
theorem draw_pass_perm (pool : List String) (hnd : pool.Nodup) (cs : List Nat)
    (s : VocabState) (hs : s.studyWords = pool) (hu : s.usedWords = ∅)
    (hlen : cs.length = pool.length) :
    List.Perm (runOut s cs) pool
    ∧ (runState s cs).usedWords = pool.toFinset
    ∧ (runState s cs).studyWords = pool := by
  obtain ⟨hmem, hnodup, _, hused, hstudy⟩ :=
    draw_pass pool hnd cs s hs
      (by rw [hu]; intro x hx; exact absurd hx (Finset.not_mem_empty x))
      (by rw [hu]; simpa using hlen)
  have hperm : List.Perm (runOut s cs) pool :=
    (List.subperm_of_subset hnodup fun x hx => hmem x hx).perm_of_length_le
      (by rw [runOut_length, hlen])
  refine ⟨hperm, ?_, hstudy⟩
  rw [hused, hu, Finset.empty_union]
  exact List.toFinset_eq_of_perm _ _ hperm

/-- A draw from an exhausted non-empty pool behaves exactly as from the
same state with the drawn set already cleared. -/
theorem getRandomStudyWord_reset (s : VocabState) (c : Nat)
    (hne : s.studyWords ≠ [])
    (hcard : s.studyWords.length ≤ s.usedWords.card) :
    getRandomStudyWord s c = getRandomStudyWord { s with usedWords := ∅ } c := by
  have h1 : resetIfExhausted s = { s with usedWords := ∅ } := by
    unfold resetIfExhausted
    rw [if_pos hcard]
  have h2 : resetIfExhausted { s with usedWords := ∅ } = { s with usedWords := ∅ } := by
    unfold resetIfExhausted
    rw [if_neg]
    intro hc
    simp at hc
    exact hne hc
  unfold getRandomStudyWord
  rw [if_neg hne, if_neg (show ({ s with usedWords := ∅ } : VocabState).studyWords ≠ [] from hne)]
  simp only [h1, h2]

/-- Output equality for whole sequences after exhaustion. -/
theorem runOut_reset (s : VocabState)
    (hne : s.studyWords ≠ [])
    (hcard : s.studyWords.length ≤ s.usedWords.card)
    (cs : List Nat) :
    runOut s cs = runOut { s with usedWords := ∅ } cs := by
  cases cs with
  | nil => rfl
  | cons c cs =>
    rw [runOut_cons, runOut_cons]
    have h := getRandomStudyWord_reset s c hne hcard
    simp only [drawWord, drawState, h]

/-- Splitting a draw sequence at any point splits its outputs. -/
theorem runOut_append (cs1 : List Nat) :
    ∀ (s : VocabState) (cs2 : List Nat),
      runOut s (cs1 ++ cs2) = runOut s cs1 ++ runOut (runState s cs1) cs2 := by
  induction cs1 with
  | nil => intro s cs2; rw [List.nil_append, runOut_nil, runState_nil, List.nil_append]
  | cons c cs1 ih =>
    intro s cs2
    rw [List.cons_append, runOut_cons, runOut_cons, runState_cons, ih, List.cons_append]

/-- Splitting a draw sequence at any point chains the states. -/
theorem runState_append (cs1 : List Nat) :
    ∀ (s : VocabState) (cs2 : List Nat),
      runState s (cs1 ++ cs2) = runState (runState s cs1) cs2 := by
  induction cs1 with
  | nil => intro s cs2; rw [List.nil_append, runState_nil]
  | cons c cs1 ih =>
    intro s cs2
    rw [List.cons_append, runState_cons, runState_cons, ih]

/-- State equality for non-empty sequences after exhaustion: from the
first draw on, the exhausted state and the cleared state coincide. -/
theorem runState_reset (s : VocabState)
    (hne : s.studyWords ≠ [])
    (hcard : s.studyWords.length ≤ s.usedWords.card)
    (c : Nat) (cs : List Nat) :
    runState s (c :: cs) = runState { s with usedWords := ∅ } (c :: cs) := by
  rw [runState_cons, runState_cons]
  have h := getRandomStudyWord_reset s c hne hcard
  simp only [drawState, h]

/-- After any positive number of complete passes on a duplicate-free
pool, the drawn set covers the pool exactly. -/
theorem draw_blocks_used (pool : List String) (hnd : pool.Nodup) (hne : pool ≠ []) :
    ∀ css : List (List Nat), (∀ b ∈ css, b.length = pool.length) → css ≠ [] →
    ∀ s : VocabState, s.studyWords = pool → s.usedWords = ∅ →
    (runState s css.flatten).usedWords = pool.toFinset := by
  intro css
  induction css with
  | nil => intro _ h; exact absurd rfl h
  | cons b rest ih =>
    intro hb _ s hs hu
    have hbl : b.length = pool.length := hb b (List.mem_cons_self b rest)
    obtain ⟨_, hused, hstudy⟩ := draw_pass_perm pool hnd b s hs hu hbl
    rw [List.flatten_cons, runState_append]
    cases rest with
    | nil => rw [List.flatten_nil, runState_nil]; exact hused
    | cons b2 rest2 =>
      have hb2l : b2.length = pool.length :=
        hb b2 (List.mem_cons_of_mem b (List.mem_cons_self b2 rest2))
      have hb2ne : b2 ≠ [] := by
        intro h0
        rw [h0] at hb2l
        simp only [List.length_nil] at hb2l
        exact absurd (List.length_eq_zero.mp hb2l.symm) hne
      obtain ⟨c, b2', rfl⟩ := List.exists_cons_of_ne_nil hb2ne
      have hcard : (runState s b).studyWords.length ≤ (runState s b).usedWords.card := by
        rw [hstudy, hused, List.toFinset_card_of_nodup hnd]
      rw [List.flatten_cons, List.cons_append,
        runState_reset (runState s b) (by rw [hstudy]; exact hne) hcard c (b2' ++ rest2.flatten)]
      have hih := ih (fun b' hb' => hb b' (List.mem_cons_of_mem b hb'))
        (by intro h0; cases h0)
        { runState s b with usedWords := ∅ } hstudy rfl
      rw [List.flatten_cons, List.cons_append] at hih
      exact hih

/-- Block structure of an arbitrary number of consecutive passes on a
duplicate-free pool starting from a fresh drawn set. -/
theorem draw_blocks (pool : List String) (hnd : pool.Nodup) (hne : pool ≠ []) :
    ∀ css : List (List Nat), (∀ b ∈ css, b.length = pool.length) →
    ∀ s : VocabState, s.studyWords = pool → s.usedWords = ∅ →
    ∃ outs : List (List String),
      runOut s css.flatten = outs.flatten
      ∧ outs.length = css.length
      ∧ ∀ o ∈ outs, List.Perm o pool := by
  intro css
  induction css with
  | nil =>
    intro _ s _ _
    exact ⟨[], by simp [runOut_nil], rfl, by simp⟩
  | cons b rest ih =>
    intro hb s hs hu
    have hbl : b.length = pool.length := hb b (List.mem_cons_self b rest)
    obtain ⟨hperm, hused, hstudy⟩ := draw_pass_perm pool hnd b s hs hu hbl
    have hcard : (runState s b).studyWords.length ≤ (runState s b).usedWords.card := by
      rw [hstudy, hused, List.toFinset_card_of_nodup hnd]
    have hreset := runOut_reset (runState s b) (by rw [hstudy]; exact hne) hcard rest.flatten
    obtain ⟨outs, ho1, ho2, ho3⟩ :=
      ih (fun b' hb' => hb b' (List.mem_cons_of_mem b hb'))
        { runState s b with usedWords := ∅ } hstudy rfl
    refine ⟨runOut s b :: outs, ?_, by simp [ho2], ?_⟩
    · rw [List.flatten_cons, runOut_append, hreset, ho1, List.flatten_cons]
    · intro o ho
      rcases List.mem_cons.mp ho with h1 | h1
      · rw [h1]; exact hperm
      · exact ho3 o h1

/-- One submitted action preserves `correct_count ≤ total_count`. -/
theorem applyEvent_le (st : Counters) (e : SessionEvent)
    (h : st.correct_count ≤ st.total_count) :
    (applyEvent st e).correct_count ≤ (applyEvent st e).total_count := by
  cases e with
  | submitSpelling cur inp =>
    by_cases hi : inp = ""
    · simpa [applyEvent, hi] using h
    · by_cases hc : checkSpelling { initState with currentWord := cur } inp <;>
        simp [applyEvent, hi, hc] <;> omega
  | stopTest => simp [applyEvent]

/-- Folding actions from a valid counter state keeps the invariant. -/
theorem foldl_counters_le (es : List SessionEvent) :
    ∀ st : Counters, st.correct_count ≤ st.total_count →
      (es.foldl applyEvent st).correct_count ≤ (es.foldl applyEvent st).total_count := by
  induction es with
  | nil => intro st h; exact h
  | cons e es ih => intro st h; exact ih _ (applyEvent_le st e h)

/-! ## Theorems about the claims -/

/-- C6: after `start_study_mode` records start time `t0`, `can_start_test`
at time `t0 + d` is true exactly when `300 ≤ d` seconds have elapsed; in
particular it is false at `t0 + 299` (4:59) and true at `t0 + 300`
(5:00); and with no recorded start time it is false at every time. -/
theorem canStartTest_threshold (s : VocabState) (t0 d now : Int) :
    canStartTest (startStudyMode s t0) (t0 + d) = decide (300 ≤ d)
    ∧ canStartTest { s with studyStartTime := none } now = false
    ∧ canStartTest (startStudyMode s t0) (t0 + 299) = false
    ∧ canStartTest (startStudyMode s t0) (t0 + 300) = true := by
  have h : ∀ e : Int, canStartTest (startStudyMode s t0) (t0 + e) = decide (300 ≤ e) := by
    intro e
    simp [canStartTest, startStudyMode]
  refine ⟨h d, rfl, ?_, ?_⟩
  · rw [h 299]; rfl
  · rw [h 300]; rfl

/-- C7: a draw request on an empty pool (`get_random_study_word`) or an
empty word list (`get_random_word`) returns no word and leaves the whole
state — drawn set and current word included — unchanged. -/
theorem emptyDraw_refused (s : VocabState) (c : Nat) :
    (s.studyWords = [] → getRandomStudyWord s c = (none, s))
    ∧ (s.words = [] → getRandomWord s c = (none, s)) := by
  constructor <;> intro h <;> simp [getRandomStudyWord, getRandomWord, h]

/-- Witness for C7 at the freshly initialised (empty) state. -/
theorem emptyDraw_refused_witness :
    getRandomStudyWord initState 0 = (none, initState)
    ∧ getRandomWord initState 0 = (none, initState) :=
  ⟨(emptyDraw_refused initState 0).1 rfl, (emptyDraw_refused initState 0).2 rfl⟩

/-- C2 fails as stated: with current word `"apple "` (trailing blank) the
input `"apple"` is accepted by `check_spelling`, although the trimmed
lower-cased input differs from the lower-cased (untrimmed) current word —
the code strips the current word too before comparing. -/
theorem checkSpelling_untrimmed_counterexample :
    checkSpelling { initState with currentWord := some "apple " } "apple" = true
    ∧ pyLower (pyStrip "apple") ≠ pyLower "apple " := by
  exact ⟨by decide, by decide⟩

/-- C2 amended: `check_spelling` returns true iff a non-empty current
word is set and the input equals the current word after stripping
leading/trailing whitespace and lower-casing BOTH sides; the listed
examples hold: `"apple "` vs current `"Apple"` is accepted, `"Appl"` vs
`"Apple"` is rejected, and without a current word every input is
rejected. -/
theorem checkSpelling_characterisation (s : VocabState) (inp : String) :
    (checkSpelling s inp = true ↔
      ∃ w, s.currentWord = some w ∧ w ≠ ""
        ∧ pyLower (pyStrip inp) = pyLower (pyStrip w))
    ∧ checkSpelling { s with currentWord := none } inp = false
    ∧ checkSpelling { s with currentWord := some "Apple" } "apple " = true
    ∧ checkSpelling { s with currentWord := some "Apple" } "Appl" = false := by
  refine ⟨?_, rfl, ?_, ?_⟩
  · cases hc : s.currentWord with
    | none => simp [checkSpelling, hc]
    | some w =>
      by_cases hw : w = "" <;> simp [checkSpelling, hc, hw]
  · simp only [checkSpelling]; decide
  · simp only [checkSpelling]; decide

/-- C5 fails as stated: the cell `" nan "` trims to the sentinel `"nan"`
(so the claim discards it), but the code lower-cases the UNtrimmed text,
`" nan " ≠ "nan"`, and keeps the cell as the word `"nan"`. -/
theorem keepCell_counterexample :
    keepCell " nan " = some "nan" ∧ pyLower (pyStrip " nan ") = "nan" := by
  exact ⟨by decide, by decide⟩

/-- C5 amended: a cell is discarded iff it is empty after trimming or its
UNtrimmed text lower-cases to `"nan"`; every kept cell is stored trimmed
(case preserved), and a column contributes its kept cells in source
order. -/
theorem keepCell_characterisation (cell : String) (col : List String) :
    (keepCell cell = none ↔ pyStrip cell = "" ∨ pyLower cell = "nan")
    ∧ (keepCell cell ≠ none → keepCell cell = some (pyStrip cell))
    ∧ collectWords [col] = col.filterMap keepCell := by
  refine ⟨?_, ?_, by simp [collectWords]⟩ <;> by_cases h1 : pyStrip cell = "" <;>
    by_cases h2 : pyLower cell = "nan" <;> simp [keepCell, h1, h2]

/-- Witness for C5's amended claim at the cell `"  Word  "` inside a
two-cell column. -/
theorem keepCell_characterisation_witness :
    (keepCell "  Word  " = none ↔ pyStrip "  Word  " = "" ∨ pyLower "  Word  " = "nan")
    ∧ (keepCell "  Word  " ≠ none → keepCell "  Word  " = some (pyStrip "  Word  "))
    ∧ collectWords [["  Word  ", "nan"]] = ["  Word  ", "nan"].filterMap keepCell :=
  keepCell_characterisation "  Word  " ["  Word  ", "nan"]

/-- C4 fails as stated: loading a parseable one-column table whose only
cell is the sentinel `"nan"` returns failure even though the source was
parsed and has a usable column, and this failure is NOT atomic — the
word list is overwritten with the empty list (and the used set cleared)
before the failure is reported. -/
theorem load_failure_counterexample :
    (loadWordsFromExcel c4Before (some [["nan"]])).1 = false
    ∧ (some [["nan"]] : Option (List (List String))) ≠ none
    ∧ [["nan"]].length > 0
    ∧ c4Before.words = ["cat"]
    ∧ (loadWordsFromExcel c4Before (some [["nan"]])).2.words = []
    ∧ (loadWordsFromExcel c4Before (some [["nan"]])).2.usedWords = ∅ := by
  refine ⟨by decide, by decide, by decide, rfl, by decide, by decide⟩

/-- C4 amended: `load_words_from_excel` fails exactly when the source
cannot be parsed, has zero columns, or yields zero usable cells after
filtering.  The parse-failure and zero-column failures are atomic (state
returned unchanged), but on the zero-usable-cells failure the word list
has already been replaced by the empty list and the used set cleared.
On success the word list is the collected cells and the used set is
reset. -/
theorem load_characterisation (s : VocabState) (cols : List (List String)) :
    loadWordsFromExcel s none = (false, s)
    ∧ loadWordsFromExcel s (some []) = (false, s)
    ∧ (cols ≠ [] →
        ((loadWordsFromExcel s (some cols)).1 = true ↔ collectWords cols ≠ [])
        ∧ (loadWordsFromExcel s (some cols)).2 =
            { s with words := collectWords cols, usedWords := ∅ }) := by
  refine ⟨rfl, rfl, fun hc => ⟨?_, ?_⟩⟩ <;>
    simp [loadWordsFromExcel, List.length_pos.mpr hc, List.length_pos]

/-- Witness for C4's amended claim: loading the table with the single
usable cell `"cat"` over the empty initial state. -/
theorem load_characterisation_witness :
    loadWordsFromExcel initState none = (false, initState)
    ∧ loadWordsFromExcel initState (some []) = (false, initState)
    ∧ (((loadWordsFromExcel initState (some [["cat"]])).1 = true ↔
          collectWords [["cat"]] ≠ [])
        ∧ (loadWordsFromExcel initState (some [["cat"]])).2 =
            { initState with words := collectWords [["cat"]], usedWords := ∅ }) :=
  ⟨(load_characterisation initState [["cat"]]).1,
   (load_characterisation initState [["cat"]]).2.1,
   (load_characterisation initState [["cat"]]).2.2 (by decide)⟩

/-- C8: a cached word is answered from the cache with no state change and
no external call (the response parameter is irrelevant); an uncached word
whose external lookup fails in any way (missing fields, non-200, raised
error) yields the corresponding placeholder string, the placeholder is
cached under the word, and every subsequent lookup of that word returns
the cached string with the state unchanged, whatever the collaborator
would do. -/
theorem meaningLookup_fallback (s : VocabState) (word : String) :
    (∀ m api, lookupMeaning s.wordMeanings word = some m →
        getWordMeaningOnline s word api = (m, s))
    ∧ (lookupMeaning s.wordMeanings word = none →
        ∀ api : ApiResponse, (∀ d, api ≠ ApiResponse.success d) →
          ∃ fb,
            getWordMeaningOnline s word api
              = (fb, { s with wordMeanings := (word, fb) :: s.wordMeanings })
            ∧ ((api = ApiResponse.noDefinition ∨ api = ApiResponse.badStatus) →
                fb = fallbackUnavailable word)
            ∧ (∀ msg, api = ApiResponse.failure msg → fb = fallbackErrorText word msg)
            ∧ ∀ api2,
                getWordMeaningOnline
                  { s with wordMeanings := (word, fb) :: s.wordMeanings } word api2
                = (fb, { s with wordMeanings := (word, fb) :: s.wordMeanings })) := by
  constructor
  · intro m api hm
    simp [getWordMeaningOnline, hm]
  · intro hn api hapi
    cases api with
    | success d => exact absurd rfl (hapi d)
    | noDefinition =>
      exact ⟨fallbackUnavailable word, (by simp [getWordMeaningOnline, hn]),
        (fun _ => rfl), (fun msg hmsg => by cases hmsg),
        (fun api2 => by simp [getWordMeaningOnline, lookupMeaning])⟩
    | badStatus =>
      exact ⟨fallbackUnavailable word, (by simp [getWordMeaningOnline, hn]),
        (fun _ => rfl), (fun msg hmsg => by cases hmsg),
        (fun api2 => by simp [getWordMeaningOnline, lookupMeaning])⟩
    | failure msg0 =>
      exact ⟨fallbackErrorText word msg0, (by simp [getWordMeaningOnline, hn]),
        (fun hab => by rcases hab with hab | hab <;> cases hab),
        (fun msg hmsg => by cases hmsg; rfl),
        (fun api2 => by simp [getWordMeaningOnline, lookupMeaning])⟩

/-- Witness for C8: looking up `"cat"` in the fresh state with a non-200
response caches and returns the placeholder. -/
theorem meaningLookup_fallback_witness :
    ∃ fb,
      getWordMeaningOnline initState "cat" ApiResponse.badStatus
        = (fb, { initState with wordMeanings := ("cat", fb) :: initState.wordMeanings })
      ∧ ((ApiResponse.badStatus = ApiResponse.noDefinition
            ∨ ApiResponse.badStatus = ApiResponse.badStatus) →
          fb = fallbackUnavailable "cat")
      ∧ (∀ msg, ApiResponse.badStatus = ApiResponse.failure msg →
          fb = fallbackErrorText "cat" msg)
      ∧ ∀ api2,
          getWordMeaningOnline
            { initState with wordMeanings := ("cat", fb) :: initState.wordMeanings }
            "cat" api2
          = (fb, { initState with wordMeanings := ("cat", fb) :: initState.wordMeanings }) :=
  (meaningLookup_fallback initState "cat").2 rfl ApiResponse.badStatus
    (fun _ h => ApiResponse.noConfusion h)

/-- C9: a submitted non-empty spelling increments `total_count` by exactly
one and `correct_count` by one exactly when `check_spelling` succeeded;
Stop Test resets both counters to zero together; each action preserves
`correct_count ≤ total_count`, and the invariant holds after every action
sequence from the initial session state. -/
theorem counters_invariant (st : Counters) (e : SessionEvent)
    (es : List SessionEvent) (cur : Option String) (inp : String) :
    (st.correct_count ≤ st.total_count →
        (applyEvent st e).correct_count ≤ (applyEvent st e).total_count)
    ∧ (inp ≠ "" →
        (applyEvent st (SessionEvent.submitSpelling cur inp)).total_count
            = st.total_count + 1
        ∧ (applyEvent st (SessionEvent.submitSpelling cur inp)).correct_count
            = st.correct_count
              + (if checkSpelling { initState with currentWord := cur } inp
                 then 1 else 0))
    ∧ applyEvent st SessionEvent.stopTest = { correct_count := 0, total_count := 0 }
    ∧ (runEvents es).correct_count ≤ (runEvents es).total_count := by
  refine ⟨applyEvent_le st e, fun hi => ?_, rfl, foldl_counters_le es _ (Nat.le_refl 0)⟩
  by_cases hc : checkSpelling { initState with currentWord := cur } inp <;>
    simp [applyEvent, hi, hc]

/-- Witness for C9: Stop Test from `(0, 0)`, a correct submission of
`"cat"` from `(2, 3)`, and a one-action run. -/
theorem counters_invariant_witness :
    ((applyEvent { correct_count := 0, total_count := 0 } SessionEvent.stopTest).correct_count
      ≤ (applyEvent { correct_count := 0, total_count := 0 } SessionEvent.stopTest).total_count)
    ∧ (applyEvent { correct_count := 2, total_count := 3 }
          (SessionEvent.submitSpelling (some "cat") "cat")).total_count = 3 + 1
    ∧ ((runEvents [SessionEvent.submitSpelling (some "cat") "cat"]).correct_count
        ≤ (runEvents [SessionEvent.submitSpelling (some "cat") "cat"]).total_count) :=
  ⟨(counters_invariant { correct_count := 0, total_count := 0 }
      SessionEvent.stopTest [] none "x").1 (Nat.le_refl 0),
   ((counters_invariant { correct_count := 2, total_count := 3 }
      SessionEvent.stopTest [] (some "cat") "cat").2.1 (by decide)).1,
   (counters_invariant { correct_count := 0, total_count := 0 }
      SessionEvent.stopTest [SessionEvent.submitSpelling (some "cat") "cat"]
      none "x").2.2.2⟩

/-- C10: the drawn set stays inside the study pool: it is preserved by
every single draw and every draw sequence, and (re)established by
`select_study_words` — on a non-empty word list because the drawn set is
reset to empty, and on an empty word list because the state is left
untouched. -/
theorem usedWords_subset_invariant (s : VocabState) (c : Nat) (n : Nat)
    (idxs : List Nat) (cs : List Nat) :
    (UsedSub s → UsedSub (drawState s c))
    ∧ (s.words ≠ [] → UsedSub ((selectStudyWords s n idxs).2))
    ∧ (s.words = [] → UsedSub s → UsedSub ((selectStudyWords s n idxs).2))
    ∧ (UsedSub s → UsedSub (runState s cs)) := by
  refine ⟨drawState_usedSub s c, fun hw => ?_, fun hw h => ?_, runState_usedSub cs s⟩
  · intro x hx
    simp [selectStudyWords, hw] at hx
  · simpa [selectStudyWords, hw] using h

/-- Witness for C10 at a two-word state with one word already drawn. -/
theorem usedWords_subset_invariant_witness :
    UsedSub (drawState twoWordState 1)
    ∧ UsedSub ((selectStudyWords twoWordState 1 [0]).2)
    ∧ UsedSub (runState twoWordState [0, 1, 2]) := by
  have hsub : UsedSub twoWordState := by
    intro x hx
    simp only [twoWordState, Finset.mem_singleton] at hx
    simp [twoWordState, hx]
  refine ⟨(usedWords_subset_invariant twoWordState 1 1 [0] [0, 1, 2]).1 hsub,
    (usedWords_subset_invariant twoWordState 1 1 [0] [0, 1, 2]).2.1 (by decide),
    (usedWords_subset_invariant twoWordState 1 1 [0] [0, 1, 2]).2.2.2 hsub⟩

/-- C3: for a valid without-replacement sample over a non-empty loaded
word list, `select_study_words n` returns a pool of exactly
`min n (number of words)` words, each taken from the word list, installs
it as the study pool, resets the drawn set to empty, and when `n` is at
least the total word count the pool is the full word list (as a
permutation — `random.sample` shuffles the order). -/
theorem selectStudyWords_spec (s : VocabState) (n : Nat) (idxs : List Nat)
    (hw : s.words ≠ [])
    (hv : validSample s.words (min n s.words.length) idxs) :
    (selectStudyWords s n idxs).1.length = min n s.words.length
    ∧ (∀ w ∈ (selectStudyWords s n idxs).1, w ∈ s.words)
    ∧ (selectStudyWords s n idxs).2.usedWords = ∅
    ∧ (selectStudyWords s n idxs).2.studyWords = (selectStudyWords s n idxs).1
    ∧ (s.words.length ≤ n → List.Perm (selectStudyWords s n idxs).1 s.words) := by
  obtain ⟨hnd, hlen, hbnd⟩ := hv
  have htake : idxs.take (min n s.words.length) = idxs :=
    List.take_of_length_le (le_of_eq hlen)
  refine ⟨?_, ?_, ?_, ?_, ?_⟩
  · simp [selectStudyWords, hw, htake, sampleByIdx, hlen]
  · intro w hwmem
    simp only [selectStudyWords, if_neg hw, htake] at hwmem
    obtain ⟨i, hi, hfi⟩ := List.mem_map.mp hwmem
    rw [← hfi, List.getD_eq_getElem s.words "" (hbnd i hi)]
    exact List.getElem_mem (hbnd i hi)
  · simp [selectStudyWords, hw]
  · simp [selectStudyWords, hw]
  · intro hn
    have hmin : min n s.words.length = s.words.length := Nat.min_eq_right hn
    simp only [selectStudyWords, if_neg hw, htake]
    exact sample_perm s.words idxs hnd (hlen.trans hmin) hbnd

/-- Witness for C3: sampling both words of a two-word list with `n = 5`. -/
theorem selectStudyWords_spec_witness :
    (selectStudyWords { initState with words := ["cat", "dog"] } 5 [1, 0]).1.length
        = min 5 2
    ∧ (∀ w ∈ (selectStudyWords { initState with words := ["cat", "dog"] } 5 [1, 0]).1,
        w ∈ ["cat", "dog"])
    ∧ (selectStudyWords { initState with words := ["cat", "dog"] } 5 [1, 0]).2.usedWords = ∅
    ∧ (selectStudyWords { initState with words := ["cat", "dog"] } 5 [1, 0]).2.studyWords
        = (selectStudyWords { initState with words := ["cat", "dog"] } 5 [1, 0]).1
    ∧ List.Perm (selectStudyWords { initState with words := ["cat", "dog"] } 5 [1, 0]).1
        ["cat", "dog"] := by
  have h := selectStudyWords_spec { initState with words := ["cat", "dog"] } 5 [1, 0]
    (by decide) (by refine ⟨by decide, by decide, ?_⟩; decide)
  exact ⟨h.1, h.2.1, h.2.2.1, h.2.2.2.1, h.2.2.2.2 (by decide)⟩

/-- C1 fails as stated for a reachable pool with a duplicated word
(`["a", "a", "b"]`, obtainable because the loaded word list may repeat a
text): after two draws the drawn set `{"a", "b"}` already covers every
pool member, yet it is never reset to empty — a third draw leaves it at
`{"a", "b"}` of size 2, where the claimed reset-and-restart would leave
a singleton drawn set. -/
theorem studyDraw_reset_counterexample :
    c1Pool.toFinset ⊆ (runState c1S0 [0, 0]).usedWords
    ∧ runOut c1S0 [0, 0, 0] = ["a", "b", "a"]
    ∧ (runState c1S0 [0, 0, 0]).usedWords = {"a", "b"}
    ∧ (runState c1S0 [0, 0, 0]).usedWords.card = 2 := by
  exact ⟨by decide, by decide, by decide, by decide⟩

/-- C1 amended: on a non-empty DUPLICATE-FREE pool created as a study
selection (empty drawn set), every draw returns a pool member — for
arbitrary call sequences — and any sequence of `k × |pool|` calls splits
into `k` consecutive blocks of `|pool|` outputs each of which is a
permutation of the pool: no word repeats within a pass, the drawn set
covers the pool exactly at each block boundary, and the next call starts
a fresh pass.  (For pools with duplicated words the drawn set is never
reset once it covers the distinct words; draws then fall back to the
whole pool.) -/
theorem studyDraw_blocks (pool : List String) (hnd : pool.Nodup) (hne : pool ≠ [])
    (s0 : VocabState) (hs : s0.studyWords = pool) (hu : s0.usedWords = ∅)
    (css : List (List Nat)) (hb : ∀ b ∈ css, b.length = pool.length) :
    (∀ cs : List Nat, ∀ w ∈ runOut s0 cs, w ∈ pool)
    ∧ (∃ outs : List (List String),
        runOut s0 css.flatten = outs.flatten
        ∧ outs.length = css.length
        ∧ ∀ o ∈ outs, List.Perm o pool)
    ∧ (css ≠ [] → (runState s0 css.flatten).usedWords = pool.toFinset) := by
  refine ⟨?_, draw_blocks pool hnd hne css hb s0 hs hu,
    fun hcss => draw_blocks_used pool hnd hne css hb hcss s0 hs hu⟩
  intro cs w hw
  have hmem := runOut_mem_pool cs s0 (by rw [hs]; exact hne) w hw
  rwa [hs] at hmem

/-- Witness for C1's amended claim: the fresh pool `["a", "b"]` run for
two passes of two calls each. -/
theorem studyDraw_blocks_witness :
    (∀ cs : List Nat, ∀ w ∈ runOut w1State cs, w ∈ ["a", "b"])
    ∧ (∃ outs : List (List String),
        runOut w1State ([[0, 0], [1, 1]] : List (List Nat)).flatten = outs.flatten
        ∧ outs.length = ([[0, 0], [1, 1]] : List (List Nat)).length
        ∧ ∀ o ∈ outs, List.Perm o ["a", "b"])
    ∧ (([[0, 0], [1, 1]] : List (List Nat)) ≠ [] →
        (runState w1State ([[0, 0], [1, 1]] : List (List Nat)).flatten).usedWords
          = (["a", "b"] : List String).toFinset) :=
  studyDraw_blocks ["a", "b"] (by decide) (by decide) w1State rfl rfl
    [[0, 0], [1, 1]] (by decide)

